import Mathlib

/-!
Verification of the transaction-scoped object cache of an object-relational
mapping layer. The Lean definitions below are a shallow embedding of the
Rust sources: `data.rs` (scalar values), `error.rs` (error taxonomy),
`object.rs` (schema metadata), `storage.rs` (the storage-transaction
interface and its SQL statement generation), `transaction.rs` (the object
cache, handles and the dirty-state machine) and the derive macro's generated
row codecs (`orm-derive/src/lib.rs`).

Rust's `Rc<RefCell<CacheValue<dyn Store>>>` cells are modelled by an explicit
arena (`store : List (CacheValue Obj)`); an `Rc` pointer is an index into the
arena, and the `RefCell` borrow flag is modelled by an explicit `BorrowState`
per cell. Panics (borrow-flag violations, failed downcasts and assertion
failures) are modelled by the `TxResult.panic` constructor, kept distinct
from recoverable `Error` results.
-/

namespace Orm

/-- Scalar data types of `data.rs` (`DataType`). -/
inductive DataType
  | str
  | bytes
  | int64
  | float64
  | bool
  deriving DecidableEq

/-- A byte of a `Vec<u8>` blob. -/
abbrev Byte := Fin 256

/-- A 64-bit IEEE float, carried opaquely by the ORM (no arithmetic is ever
performed on it: `to_row`/`from_row` and the storage layer only move the
value), so it is modelled by its bit pattern. -/
structure Float64 where
  bits : Nat
  deriving DecidableEq

/-- Tagged scalar values of `data.rs` (`Value`). -/
inductive Value
  | str (s : String)
  | bytes (b : List Byte)
  | int64 (i : Int)
  | float64 (f : Float64)
  | bool (b : Bool)
  deriving DecidableEq

/-- A row is an ordered sequence of scalar values (`storage.rs`, `Row`). -/
abbrev Row := List Value

/-- Object identifiers are signed 64-bit integers assigned by the backend
(`data.rs`, `ObjectId`); only equality is ever used, so `Int` models `i64`. -/
abbrev ObjectId := Int

/-- One column of a schema (`object.rs`, `Field`). -/
structure Field where
  columnName : String
  dataType : DataType
  attrName : String
  deriving DecidableEq

/-- Static metadata mapping one object type to one table
(`object.rs`, `Schema`). -/
structure Schema where
  tableName : String
  fields : List Field
  typeName : String
  deriving DecidableEq

/-- The error taxonomy of `error.rs`. Backend-originated errors are carried
as messages. -/
inductive Error
  | notFound (objectId : ObjectId) (typeName : String)
  | unexpectedType (typeName attrName tableName columnName : String)
      (expectedType : DataType) (gotType : String)
  | missingColumn (typeName attrName tableName columnName : String)
  | lockConflict
  | storage (msg : String)
  deriving DecidableEq

/-- One invocation of the storage-transaction interface, as recorded in the
call trace of the cache operations. -/
inductive StorageCall
  | tableExists (table : String)
  | createTable (schema : Schema)
  | insertRow (schema : Schema) (row : Row)
  | updateRow (id : ObjectId) (schema : Schema) (row : Row)
  | selectRow (id : ObjectId) (schema : Schema)
  | deleteRow (id : ObjectId) (schema : Schema)
  | commitCall
  | rollbackCall
  deriving DecidableEq

/-- The identifier a storage call is keyed by, when it has one. -/
def StorageCall.idOf : StorageCall → Option ObjectId
  | .updateRow id _ _ => some id
  | .selectRow id _ => some id
  | .deleteRow id _ => some id
  | _ => none

/-- The narrow backend contract of `storage.rs` (`StorageTransaction`),
as a state machine over an abstract backend state `σ`. Every operation
returns the possibly-failed result together with the next backend state. -/
structure StorageTransaction (σ : Type) where
  tableExists : σ → String → Except Error Bool × σ
  createTable : σ → Schema → Except Error Unit × σ
  insertRow : σ → Schema → Row → Except Error ObjectId × σ
  updateRow : σ → ObjectId → Schema → Row → Except Error Unit × σ
  selectRow : σ → ObjectId → Schema → Except Error Row × σ
  deleteRow : σ → ObjectId → Schema → Except Error Unit × σ
  commitTx : σ → Except Error Unit × σ
  rollbackTx : σ → Except Error Unit × σ

/-- Dirty-state tag of a cache entry (`transaction.rs`, `ObjectState`). -/
inductive ObjectState
  | clean
  | modified
  | removed
  deriving DecidableEq

/-- The borrow flag of the `RefCell` enclosing a cache entry: `shared n`
means `n` outstanding immutable borrows (`n = 0` is the free state),
`exclusive` means one outstanding mutable borrow. -/
inductive BorrowState
  | shared (n : Nat)
  | exclusive
  deriving DecidableEq

/-- A cache entry (`transaction.rs`, `CacheValue`), together with the borrow
flag of its enclosing `RefCell`. -/
structure CacheValue (Obj : Type) where
  borrows : BorrowState
  state : ObjectState
  obj : Obj
  deriving DecidableEq

/-- Mirror of `CacheValue::new`: a fresh, unborrowed entry tagged `Clean`. -/
def CacheValue.new {Obj : Type} (obj : Obj) : CacheValue Obj :=
  { borrows := .shared 0, state := .clean, obj := obj }

/-- The full state of one `Transaction`: the backend state, the arena of
`Rc<RefCell<_>>` cells, and the `HashMap<ObjectId, Repr>` cache, modelled as
an association list from identifier to arena index. -/
structure TxnState (σ Obj : Type) where
  inner : σ
  store : List (CacheValue Obj)
  cache : List (ObjectId × Nat)
  deriving DecidableEq

/-- A handle (`transaction.rs`, `Tx<'a, T>`): the bound identifier plus the
arena index played by its `Rc` pointer. -/
structure Tx where
  id : ObjectId
  idx : Nat
  deriving DecidableEq

/-- Result of a cache or handle operation: success, a recoverable `Error`,
or a process-terminating panic. -/
inductive TxResult (α : Type)
  | ok (a : α)
  | err (e : Error)
  | panic (msg : String)
  deriving DecidableEq

/-- Whether a result is a panic. -/
def TxResult.isPanic {α : Type} : TxResult α → Bool
  | .panic _ => true
  | _ => false

/-- `HashMap` lookup on the association-list cache. -/
def cacheFind (c : List (ObjectId × Nat)) (id : ObjectId) : Option Nat :=
  match c with
  | [] => none
  | (k, v) :: rest => if k = id then some v else cacheFind rest id

/-- `HashMap::insert`: overwrites the binding of `id` when present,
otherwise appends a new one. -/
def cacheInsert (c : List (ObjectId × Nat)) (id : ObjectId) (idx : Nat) :
    List (ObjectId × Nat) :=
  match c with
  | [] => [(id, idx)]
  | (k, v) :: rest =>
      if k = id then (id, idx) :: rest else (k, v) :: cacheInsert rest id idx

/-- The cache holds no duplicate identifier. -/
def nodupKeys (c : List (ObjectId × Nat)) : Prop :=
  (c.map Prod.fst).Nodup

/-- Well-formedness of a transaction state: no duplicate cache keys and
every cached index points into the arena. -/
def WF {σ Obj : Type} (s : TxnState σ Obj) : Prop :=
  nodupKeys s.cache ∧ ∀ p ∈ s.cache, p.2 < s.store.length

/-- Replace the arena cell at `idx`. -/
def setCell {σ Obj : Type} (s : TxnState σ Obj) (idx : Nat)
    (cell : CacheValue Obj) : TxnState σ Obj :=
  { s with store := s.store.set idx cell }

section Ops

variable {σ Obj : Type}

/-- Mirror of `Transaction::ensure_table_exists`: probe for the table and
create it when absent. Returns the error (if any), the backend state and the
trace of issued storage calls. -/
def ensureTableExists (B : StorageTransaction σ) (schema : Schema) (st : σ) :
    Option Error × σ × List StorageCall :=
  match B.tableExists st schema.tableName with
  | (.error e, st') => (some e, st', [.tableExists schema.tableName])
  | (.ok true, st') => (none, st', [.tableExists schema.tableName])
  | (.ok false, st') =>
      match B.createTable st' schema with
      | (.error e, st'') =>
          (some e, st'', [.tableExists schema.tableName, .createTable schema])
      | (.ok _, st'') =>
          (none, st'', [.tableExists schema.tableName, .createTable schema])

/-- Mirror of `Transaction::create`: ensure the table, insert the serialized
row, allocate a fresh `Clean` cell and bind the backend-assigned identifier
to it in the cache. -/
def create (B : StorageTransaction σ) (schema : Schema) (toRowF : Obj → Row)
    (obj : Obj) (s : TxnState σ Obj) :
    TxResult Tx × TxnState σ Obj × List StorageCall :=
  match ensureTableExists B schema s.inner with
  | (some e, st1, tr1) => (.err e, { s with inner := st1 }, tr1)
  | (none, st1, tr1) =>
      match B.insertRow st1 schema (toRowF obj) with
      | (.error e, st2) =>
          (.err e, { s with inner := st2 },
            tr1 ++ [.insertRow schema (toRowF obj)])
      | (.ok id, st2) =>
          (.ok ⟨id, s.store.length⟩,
            { inner := st2,
              store := s.store ++ [CacheValue.new obj],
              cache := cacheInsert s.cache id s.store.length },
            tr1 ++ [.insertRow schema (toRowF obj)])

/-- Mirror of `Transaction::get`. On a cache hit the entry's state is read
through a transient `RefCell` borrow (a panic when the cell is mutably
borrowed); a `Removed` entry yields a not-found error and any other entry is
returned as a handle without touching storage. On a miss the table is
ensured, the row selected and deserialized (`from_row` panics are modelled
by `fromRowF` returning `none`), and a fresh `Clean` entry is cached. -/
def get (B : StorageTransaction σ) (schema : Schema)
    (fromRowF : Row → Option Obj) (id : ObjectId) (s : TxnState σ Obj) :
    TxResult Tx × TxnState σ Obj × List StorageCall :=
  match cacheFind s.cache id with
  | some idx =>
      match s.store.get? idx with
      | none => (.panic "dangling cache index", s, [])
      | some cell =>
          if cell.borrows = .exclusive then
            (.panic "already mutably borrowed", s, [])
          else
            match cell.state with
            | .removed => (.err (.notFound id schema.typeName), s, [])
            | _ => (.ok ⟨id, idx⟩, s, [])
  | none =>
      match ensureTableExists B schema s.inner with
      | (some e, st1, tr1) => (.err e, { s with inner := st1 }, tr1)
      | (none, st1, tr1) =>
          match B.selectRow st1 id schema with
          | (.error e, st2) =>
              (.err e, { s with inner := st2 },
                tr1 ++ [.selectRow id schema])
          | (.ok row, st2) =>
              match fromRowF row with
              | none =>
                  (.panic "from_row conversion failed",
                    { s with inner := st2 }, tr1 ++ [.selectRow id schema])
              | some obj =>
                  (.ok ⟨id, s.store.length⟩,
                    { inner := st2,
                      store := s.store ++ [CacheValue.new obj],
                      cache := cacheInsert s.cache id s.store.length },
                    tr1 ++ [.selectRow id schema])

/-- The storage calls one cache entry contributes during the commit flush:
nothing for `Clean`, one update with the current serialized value for
`Modified`, one delete for `Removed`. -/
def entryCalls (getSchemaF : Obj → Schema) (toRowF : Obj → Row)
    (store : List (CacheValue Obj)) : ObjectId × Nat → List StorageCall
  | (id, idx) =>
      match store.get? idx with
      | none => []
      | some cell =>
          match cell.state with
          | .clean => []
          | .modified =>
              [.updateRow id (getSchemaF cell.obj) (toRowF cell.obj)]
          | .removed => [.deleteRow id (getSchemaF cell.obj)]

/-- The flush loop of `Transaction::commit`: iterate the cache entries,
borrow each cell (a panic when mutably borrowed) and dispatch on its
dirty-state; the first storage failure aborts the loop. -/
def commitFlushLoop (B : StorageTransaction σ) (getSchemaF : Obj → Schema)
    (toRowF : Obj → Row) (store : List (CacheValue Obj)) :
    List (ObjectId × Nat) → σ → TxResult Unit × σ × List StorageCall
  | [], st => (.ok (), st, [])
  | (id, idx) :: rest, st =>
      match store.get? idx with
      | none => (.panic "dangling cache index", st, [])
      | some cell =>
          if cell.borrows = .exclusive then
            (.panic "already mutably borrowed", st, [])
          else
            match cell.state with
            | .clean => commitFlushLoop B getSchemaF toRowF store rest st
            | .modified =>
                match B.updateRow st id (getSchemaF cell.obj)
                    (toRowF cell.obj) with
                | (.error e, st') =>
                    (.err e, st',
                      [.updateRow id (getSchemaF cell.obj) (toRowF cell.obj)])
                | (.ok _, st') =>
                    match commitFlushLoop B getSchemaF toRowF store rest st'
                        with
                    | (r, st'', tr) =>
                        (r, st'',
                          .updateRow id (getSchemaF cell.obj)
                              (toRowF cell.obj) :: tr)
            | .removed =>
                match B.deleteRow st id (getSchemaF cell.obj) with
                | (.error e, st') =>
                    (.err e, st', [.deleteRow id (getSchemaF cell.obj)])
                | (.ok _, st') =>
                    match commitFlushLoop B getSchemaF toRowF store rest st'
                        with
                    | (r, st'', tr) =>
                        (r, st'', .deleteRow id (getSchemaF cell.obj) :: tr)

/-- Mirror of `Transaction::commit`: flush every cache entry, then — only
when the whole flush succeeded — invoke the backend's commit. -/
def commit (B : StorageTransaction σ) (getSchemaF : Obj → Schema)
    (toRowF : Obj → Row) (s : TxnState σ Obj) :
    TxResult Unit × σ × List StorageCall :=
  match commitFlushLoop B getSchemaF toRowF s.store s.cache s.inner with
  | (.ok _, st, tr) =>
      match B.commitTx st with
      | (.error e, st') => (.err e, st', tr ++ [.commitCall])
      | (.ok _, st') => (.ok (), st', tr ++ [.commitCall])
  | (.err e, st, tr) => (.err e, st, tr)
  | (.panic m, st, tr) => (.panic m, st, tr)

/-- Mirror of `Transaction::rollback`: forward to the backend, discarding
the cache. -/
def rollback (B : StorageTransaction σ) (s : TxnState σ Obj) :
    TxResult Unit × σ × List StorageCall :=
  match B.rollbackTx s.inner with
  | (.error e, st') => (.err e, st', [.rollbackCall])
  | (.ok _, st') => (.ok (), st', [.rollbackCall])

/-- The cell a handle points at, when it exists. -/
def Tx.cellOf (h : Tx) (s : TxnState σ Obj) : Option (CacheValue Obj) :=
  s.store.get? h.idx

/-- The current object value behind a handle. -/
def Tx.peek (h : Tx) (s : TxnState σ Obj) : Option Obj :=
  (s.store.get? h.idx).map (fun c => c.obj)

/-- The current dirty-state tag behind a handle. -/
def Tx.peekState (h : Tx) (s : TxnState σ Obj) : Option ObjectState :=
  (s.store.get? h.idx).map (fun c => c.state)

/-- Mirror of `Tx::borrow`: `panic_if_removed` first takes a transient
shared borrow (a panic when the cell is mutably borrowed) and asserts the
entry is not `Removed`; then a persistent `Ref` is taken, incrementing the
shared-borrow count. Returns the borrowed value. -/
def Tx.borrowRef (h : Tx) (s : TxnState σ Obj) :
    TxResult Obj × TxnState σ Obj :=
  match s.store.get? h.idx with
  | none => (.panic "dangling handle", s)
  | some cell =>
      match cell.borrows with
      | .exclusive => (.panic "already mutably borrowed", s)
      | .shared n =>
          if cell.state = .removed then
            (.panic "cannot borrow a removed object", s)
          else
            (.ok cell.obj, setCell s h.idx { cell with borrows := .shared (n + 1) })

/-- Mirror of `Tx::borrow_mut`: `panic_if_removed` (transient shared borrow
plus the removed-assertion), then `RefCell::borrow_mut` (a panic when any
borrow is outstanding), then the dirty-state is unconditionally promoted to
`Modified` and the exclusive borrow is held. Returns the value visible
through the fresh `RefMut`. -/
def Tx.borrowMut (h : Tx) (s : TxnState σ Obj) :
    TxResult Obj × TxnState σ Obj :=
  match s.store.get? h.idx with
  | none => (.panic "dangling handle", s)
  | some cell =>
      match cell.borrows with
      | .exclusive => (.panic "already mutably borrowed", s)
      | .shared n =>
          if cell.state = .removed then
            (.panic "cannot borrow a removed object", s)
          else if n ≠ 0 then
            (.panic "already borrowed", s)
          else
            (.ok cell.obj,
              setCell s h.idx
                { cell with borrows := .exclusive, state := .modified })

/-- Mirror of `Tx::state`: read the dirty-state tag through a transient
shared borrow. -/
def Tx.stateTag (h : Tx) (s : TxnState σ Obj) : TxResult ObjectState :=
  match s.store.get? h.idx with
  | none => .panic "dangling handle"
  | some cell =>
      match cell.borrows with
      | .exclusive => .panic "already mutably borrowed"
      | .shared _ => .ok cell.state

/-- Writing through an outstanding `RefMut`: replaces the object value; only
legal while the cell is exclusively borrowed. -/
def Tx.writeObj (h : Tx) (obj' : Obj) (s : TxnState σ Obj) :
    TxResult Unit × TxnState σ Obj :=
  match s.store.get? h.idx with
  | none => (.panic "dangling handle", s)
  | some cell =>
      match cell.borrows with
      | .exclusive => (.ok (), setCell s h.idx { cell with obj := obj' })
      | .shared _ => (.panic "no outstanding mutable borrow", s)

/-- Dropping a `Ref` obtained from `Tx::borrow`: decrements the
shared-borrow count. -/
def Tx.dropRef (h : Tx) (s : TxnState σ Obj) :
    TxResult Unit × TxnState σ Obj :=
  match s.store.get? h.idx with
  | none => (.panic "dangling handle", s)
  | some cell =>
      match cell.borrows with
      | .shared (n + 1) => (.ok (), setCell s h.idx { cell with borrows := .shared n })
      | _ => (.panic "no outstanding shared borrow", s)

/-- Dropping a `RefMut` obtained from `Tx::borrow_mut`: releases the
exclusive borrow. -/
def Tx.dropMut (h : Tx) (s : TxnState σ Obj) :
    TxResult Unit × TxnState σ Obj :=
  match s.store.get? h.idx with
  | none => (.panic "dangling handle", s)
  | some cell =>
      match cell.borrows with
      | .exclusive => (.ok (), setCell s h.idx { cell with borrows := .shared 0 })
      | .shared _ => (.panic "no outstanding mutable borrow", s)

/-- Mirror of `Tx::delete`: `RefCell::try_borrow_mut` succeeds exactly when
no borrow is outstanding, in which case the entry is tagged `Removed`; any
outstanding borrow makes the deletion panic. -/
def Tx.delete (h : Tx) (s : TxnState σ Obj) :
    TxResult Unit × TxnState σ Obj :=
  match s.store.get? h.idx with
  | none => (.panic "dangling handle", s)
  | some cell =>
      match cell.borrows with
      | .shared 0 => (.ok (), setCell s h.idx { cell with state := .removed })
      | _ => (.panic "cannot delete a borrowed object", s)

/-- A complete mutation through a handle: `borrow_mut`, overwrite the value
with `f` applied to it, drop the `RefMut`. This is the sanctioned mutation
path of the design. -/
def Tx.writeThrough (h : Tx) (f : Obj → Obj) (s : TxnState σ Obj) :
    TxResult Unit × TxnState σ Obj :=
  match h.borrowMut s with
  | (.ok cur, s1) =>
      match h.writeObj (f cur) s1 with
      | (.ok _, s2) => h.dropMut s2
      | (.err e, s2) => (.err e, s2)
      | (.panic m, s2) => (.panic m, s2)
  | (.err e, s1) => (.err e, s1)
  | (.panic m, s1) => (.panic m, s1)

/-- A complete read through a handle: `borrow`, observe the value, drop the
`Ref`. -/
def Tx.readThrough (h : Tx) (s : TxnState σ Obj) :
    TxResult Obj × TxnState σ Obj :=
  match h.borrowRef s with
  | (.ok v, s1) =>
      match h.dropRef s1 with
      | (.ok _, s2) => (.ok v, s2)
      | (.err e, s2) => (.err e, s2)
      | (.panic m, s2) => (.panic m, s2)
  | (.err e, s1) => (.err e, s1)
  | (.panic m, s1) => (.panic m, s1)

end Ops

/-- A bound SQL parameter: either a scalar row value or the raw `i64`
identifier pushed by `update_row`/`select_row`/`delete_row`. -/
inductive SqlParam
  | val (v : Value)
  | intParam (i : Int)
  deriving DecidableEq

/-- Mirror of `row_to_parameters` in `storage.rs`: every row value becomes
one positional parameter. -/
def rowToParameters (row : Row) : List SqlParam :=
  row.map SqlParam.val

/-- Mirror of `Vec::join(",")` as used by the statement builders. -/
def joinComma : List String → String
  | [] => ""
  | [x] => x
  | x :: y :: rest => x ++ "," ++ joinComma (y :: rest)

namespace Sqlite

/-- The SQL text built by `update_row` in `storage.rs` for a non-empty
schema: the numbered `col = ?i` assignments for every schema field, chained
with the literal `id = id` term, with the identifier bound as the last
positional parameter of the `WHERE` clause. -/
def updateRowSql (schema : Schema) (row : Row) : String :=
  let setSql := joinComma
    ((((List.range' 1 row.length).zip schema.fields).map
        (fun p => p.2.columnName ++ " = ?" ++ toString p.1))
      ++ ["id = id"])
  "UPDATE " ++ schema.tableName ++ " SET " ++ setSql ++ " WHERE id = ?"
    ++ toString (row.length + 1)

/-- Mirror of `update_row` in `storage.rs`, with the backend's statement
execution abstracted by `e`. Returns the result together with the list of
issued statements (SQL text plus bound parameters): none for a zero-field
schema, exactly one otherwise. -/
def updateRow (e : String → List SqlParam → Except Error Unit)
    (id : ObjectId) (schema : Schema) (row : Row) :
    Except Error Unit × List (String × List SqlParam) :=
  if schema.fields.isEmpty then (.ok (), [])
  else
    let parameters := rowToParameters row ++ [SqlParam.intParam id]
    let sql := updateRowSql schema row
    (e sql parameters, [(sql, parameters)])

end Sqlite

/-- Modelled from the spec: the claimed statement shape
`UPDATE <table> SET <col>=?,… WHERE id=?` — every schema column set from a
numbered placeholder, and nothing else in the `SET` list. Used only to
compare the specified shape against the source's `update_row`. -/
def updateRowSqlSpec (schema : Schema) (row : Row) : String :=
  "UPDATE " ++ schema.tableName ++ " SET "
    ++ joinComma
      (((List.range' 1 row.length).zip schema.fields).map
        (fun p => p.2.columnName ++ " = ?" ++ toString p.1))
    ++ " WHERE id = ?" ++ toString (row.length + 1)

/-- The Rust field type corresponding to each schema data type, as used by
the derived `Object` implementations. -/
def interpTy : DataType → Type
  | .str => String
  | .bytes => List Byte
  | .int64 => Int
  | .float64 => Float64
  | .bool => Bool

/-- A derived struct's field tuple, typed by the schema's data-type list. -/
inductive HVal : List DataType → Type
  | nil : HVal []
  | cons {t : DataType} {ts : List DataType} (x : interpTy t) (xs : HVal ts) :
      HVal (t :: ts)

/-- The `From<&T> for Value` conversions of `data.rs`, as invoked by the
generated `to_row`. -/
def toValue : (t : DataType) → interpTy t → Value
  | .str, s => .str s
  | .bytes, b => .bytes b
  | .int64, i => .int64 i
  | .float64, f => .float64 f
  | .bool, b => .bool b

/-- The `From<Value> for T` conversions of `data.rs`, as invoked by the
generated `from_row`; a value of the wrong variant panics (`none`). -/
def fromValue : (t : DataType) → Value → Option (interpTy t)
  | .str, .str s => some s
  | .bytes, .bytes b => some b
  | .int64, .int64 i => some i
  | .float64, .float64 f => some f
  | .bool, .bool b => some b
  | _, _ => none

/-- The generated `to_row`: each field, in declaration order, converted into
a tagged scalar value. -/
def toRowD : {ts : List DataType} → HVal ts → Row
  | _, .nil => []
  | _, .cons x xs => toValue _ x :: toRowD xs

/-- The generated `from_row`: the row must have exactly as many values as
the struct has fields (`try_into` panics otherwise, modelled by `none`), and
each value is converted back via its `From<Value>` implementation (a
wrong-variant value panics, modelled by `none`). -/
def fromRowD : (ts : List DataType) → Row → Option (HVal ts)
  | [], [] => some .nil
  | t :: ts, v :: vs =>
      match fromValue t v, fromRowD ts vs with
      | some x, some xs => some (.cons x xs)
      | _, _ => none
  | [], _ :: _ => none
  | _ :: _, [] => none

/-! ## Concrete fixtures used by the witnesses -/

/-- Schema of a one-field integer object, used in concrete witnesses. -/
def intSchema : Schema :=
  { tableName := "Num",
    fields := [{ columnName := "value", dataType := .int64, attrName := "value" }],
    typeName := "Num" }

/-- Serialization of the concrete integer object type. -/
def intToRow (n : Int) : Row := [Value.int64 n]

/-- Deserialization of the concrete integer object type. -/
def intFromRow : Row → Option Int
  | [Value.int64 n] => some n
  | _ => none

/-- Schema accessor of the concrete integer object type. -/
def intGetSchema (_ : Int) : Schema := intSchema

/-- A backend on which every operation succeeds: inserts assign id 1 and
selects return the row of value 7. -/
def okBackend : StorageTransaction Unit where
  tableExists := fun st _ => (.ok true, st)
  createTable := fun st _ => (.ok (), st)
  insertRow := fun st _ _ => (.ok 1, st)
  updateRow := fun st _ _ _ => (.ok (), st)
  selectRow := fun st _ _ => (.ok [Value.int64 7], st)
  deleteRow := fun st _ _ => (.ok (), st)
  commitTx := fun st => (.ok (), st)
  rollbackTx := fun st => (.ok (), st)

/-- A backend whose row updates fail with a storage error. -/
def failUpdateBackend : StorageTransaction Unit :=
  { okBackend with updateRow := fun st _ _ _ => (.error (.storage "update failed"), st) }

/-- A state holding one tombstoned (removed) entry for id 1. -/
def removedState : TxnState Unit Int :=
  { inner := (),
    store := [{ borrows := .shared 0, state := .removed, obj := 7 }],
    cache := [(1, 0)] }

/-- A state holding one clean, unborrowed entry for id 1. -/
def cleanState : TxnState Unit Int :=
  { inner := (),
    store := [{ borrows := .shared 0, state := .clean, obj := 7 }],
    cache := [(1, 0)] }

/-- The empty transaction state. -/
def emptyState : TxnState Unit Int :=
  { inner := (), store := [], cache := [] }

/-- A state whose single entry for id 1 has one outstanding shared borrow. -/
def sharedState : TxnState Unit Int :=
  { inner := (),
    store := [{ borrows := .shared 1, state := .clean, obj := 7 }],
    cache := [(1, 0)] }

/-- A state whose single entry for id 1 is mutably borrowed. -/
def exclusiveState : TxnState Unit Int :=
  { inner := (),
    store := [{ borrows := .exclusive, state := .modified, obj := 7 }],
    cache := [(1, 0)] }

/-- A state holding one clean, one modified and one removed entry, for the
commit-flush witnesses. -/
def flushState : TxnState Unit Int :=
  { inner := (),
    store :=
      [{ borrows := .shared 0, state := .clean, obj := 4 },
       { borrows := .shared 0, state := .modified, obj := 5 },
       { borrows := .shared 0, state := .removed, obj := 6 }],
    cache := [(1, 0), (2, 1), (3, 2)] }

/-- The storage calls of a trace that are keyed by the given identifier. -/
def callsFor (id : ObjectId) (tr : List StorageCall) : List StorageCall :=
  tr.filter (fun c => c.idOf == some id)

/-- The full flush trace of a list of cache entries: the concatenation of
every entry's contributed calls, in iteration order. -/
def flushCalls {Obj : Type} (getSchemaF : Obj → Schema) (toRowF : Obj → Row)
    (store : List (CacheValue Obj)) :
    List (ObjectId × Nat) → List StorageCall
  | [] => []
  | p :: rest =>
      entryCalls getSchemaF toRowF store p
        ++ flushCalls getSchemaF toRowF store rest

/-- The `SET` clause the amended claim C7 describes: every schema column
assigned its numbered placeholder, followed by the no-op `id = id` term. -/
def setClauseSpec : Nat → List Field → String
  | _, [] => "id = id"
  | i, f :: fs => f.columnName ++ " = ?" ++ toString i ++ "," ++ setClauseSpec (i + 1) fs

/-- Schema of a one-text-field `Person` object, used by the statement-shape
witnesses. -/
def personSchema : Schema :=
  { tableName := "Person",
    fields := [{ columnName := "name", dataType := .str, attrName := "name" }],
    typeName := "Person" }

/-- Schema of a zero-field object, used by the statement-shape witnesses. -/
def unitSchema : Schema :=
  { tableName := "Marker", fields := [], typeName := "Marker" }

/-- A statement executor that always succeeds. -/
def okExec : String → List SqlParam → Except Error Unit := fun _ _ => .ok ()

/-- A backend whose row selects fail with a storage error. -/
def failSelectBackend : StorageTransaction Unit :=
  { okBackend with selectRow := fun st _ _ => (.error (.storage "select failed"), st) }

/-- A backend whose row inserts fail with a storage error. -/
def failInsertBackend : StorageTransaction Unit :=
  { okBackend with insertRow := fun st _ _ => (.error (.storage "insert failed"), st) }

/-! ## List helper lemmas -/

/-- Helper lemma: reading the overwritten position of `List.set`. -/
theorem listGetSet_self {α : Type} :
    ∀ (l : List α) (i : Nat) (a : α), i < l.length →
      (l.set i a).get? i = some a
  | [], i, _, h => absurd h (by simp)
  | _ :: _, 0, _, _ => rfl
  | _ :: xs, i + 1, a, h =>
      listGetSet_self xs i a (Nat.lt_of_succ_lt_succ (by simpa using h))

/-- Helper lemma: reading any other position of `List.set`. -/
theorem listGetSet_ne {α : Type} :
    ∀ (l : List α) (i j : Nat) (a : α), i ≠ j →
      (l.set i a).get? j = l.get? j
  | [], _, _, _, _ => rfl
  | _ :: _, 0, 0, _, h => absurd rfl h
  | _ :: _, 0, _ + 1, _, _ => rfl
  | _ :: _, _ + 1, 0, _, _ => rfl
  | _ :: xs, i + 1, j + 1, a, h =>
      listGetSet_ne xs i j a (fun hij => h (by rw [hij]))

/-- Helper lemma: reading the appended position of `l ++ [a]`. -/
theorem listGetAppend_self {α : Type} :
    ∀ (l : List α) (a : α), (l ++ [a]).get? l.length = some a
  | [], _ => rfl
  | _ :: xs, a => listGetAppend_self xs a

/-- Helper lemma: reading a position inside `l` of `l ++ l2`. -/
theorem listGetAppend_lt {α : Type} :
    ∀ (l l2 : List α) (j : Nat), j < l.length →
      (l ++ l2).get? j = l.get? j
  | [], _, j, h => absurd h (by simp)
  | _ :: _, _, 0, _ => rfl
  | _ :: xs, l2, j + 1, h =>
      listGetAppend_lt xs l2 j (Nat.lt_of_succ_lt_succ (by simpa using h))

/-! ## Theorems -/

/-- Converting a field value to a tagged scalar and back recovers the field
value, for every supported data type. -/
theorem fromValue_toValue (t : DataType) (x : interpTy t) :
    fromValue t (toValue t x) = some x := by
  cases t <;> rfl

/-- Claim C8: for every derived `Object` implementation (any list of
supported scalar field types, including the zero-field unit case) and every
object value, deserializing the serialized row reproduces the object:
`from_row (to_row v) = v`. -/
theorem row_round_trip (ts : List DataType) (v : HVal ts) :
    fromRowD ts (toRowD v) = some v := by
  induction v with
  | nil => rfl
  | cons x xs ih =>
      simp only [toRowD, fromRowD, fromValue_toValue, ih]

/-- Claim C4: for a cached identifier whose entry is tagged `Removed`,
`get` fails with a not-found error carrying the identifier and the type
name and issues no storage call; for a cached identifier with any other
tag, `get` returns a handle to that very entry, also without any storage
call. In both cases the transaction state is untouched. -/
theorem tombstone_invisibility {σ Obj : Type} (B : StorageTransaction σ)
    (schema : Schema) (fromRowF : Row → Option Obj) (id : ObjectId)
    (s : TxnState σ Obj) (idx : Nat) (cell : CacheValue Obj)
    (hfind : cacheFind s.cache id = some idx)
    (hcell : s.store.get? idx = some cell)
    (hborrow : cell.borrows ≠ .exclusive) :
    (cell.state = .removed →
      get B schema fromRowF id s
        = (.err (.notFound id schema.typeName), s, [])) ∧
    (cell.state ≠ .removed →
      get B schema fromRowF id s = (.ok ⟨id, idx⟩, s, [])) := by
  constructor
  · intro hrem
    simp only [get, hfind, hcell, if_neg hborrow, hrem]
  · intro hrem
    cases hstate : cell.state with
    | removed => exact absurd hstate hrem
    | clean => simp only [get, hfind, hcell, if_neg hborrow, hstate]
    | modified => simp only [get, hfind, hcell, if_neg hborrow, hstate]

/-- Witness for claim C4 at concrete states: a tombstoned entry makes `get`
fail not-found with no storage call, and a clean entry is returned as a
handle with no storage call. -/
theorem tombstone_invisibility_witness :
    get okBackend intSchema intFromRow 1 removedState
        = (.err (.notFound 1 "Num"), removedState, []) ∧
      get okBackend intSchema intFromRow 1 cleanState
        = (.ok ⟨1, 0⟩, cleanState, []) := by
  constructor
  · exact (tombstone_invisibility okBackend intSchema intFromRow 1
      removedState 0 { borrows := .shared 0, state := .removed, obj := 7 }
      (by decide) (by decide) (by decide)).1 (by decide)
  · exact (tombstone_invisibility okBackend intSchema intFromRow 1
      cleanState 0 { borrows := .shared 0, state := .clean, obj := 7 }
      (by decide) (by decide) (by decide)).2 (by decide)

/-- Helper lemma: a successful positional read bounds the index. -/
theorem listGet_some_lt {α : Type} :
    ∀ (l : List α) (i : Nat) (a : α), l.get? i = some a → i < l.length
  | [], _, _, h => absurd h (by simp)
  | _ :: _, 0, _, _ => Nat.succ_pos _
  | _ :: xs, i + 1, a, h => Nat.succ_lt_succ (listGet_some_lt xs i a h)

/-- Claim C5: the dirty-state transition table. A successful `create` yields
an entry tagged `Clean`; a successful `get` of an uncached identifier yields
an entry tagged `Clean`; `borrow_mut` on an unborrowed entry whose tag is
not `Removed` always retags it `Modified`; `delete` of an unborrowed entry
retags it `Removed`. -/
theorem dirty_state_transitions {σ Obj : Type} (B : StorageTransaction σ) :
    (∀ (schema : Schema) (toRowF : Obj → Row) (obj : Obj)
        (s s' : TxnState σ Obj) (h : Tx) (tr : List StorageCall),
      create B schema toRowF obj s = (.ok h, s', tr) →
        Tx.peekState h s' = some .clean) ∧
    (∀ (schema : Schema) (fromRowF : Row → Option Obj) (id : ObjectId)
        (s s' : TxnState σ Obj) (h : Tx) (tr : List StorageCall),
      cacheFind s.cache id = none →
      get B schema fromRowF id s = (.ok h, s', tr) →
        Tx.peekState h s' = some .clean) ∧
    (∀ (s : TxnState σ Obj) (h : Tx) (cell : CacheValue Obj),
      s.store.get? h.idx = some cell → cell.borrows = .shared 0 →
      cell.state ≠ .removed →
        h.borrowMut s
          = (.ok cell.obj,
              setCell s h.idx
                { cell with borrows := .exclusive, state := .modified }) ∧
        Tx.peekState h (h.borrowMut s).2 = some .modified) ∧
    (∀ (s : TxnState σ Obj) (h : Tx) (cell : CacheValue Obj),
      s.store.get? h.idx = some cell → cell.borrows = .shared 0 →
        h.delete s
          = (.ok (), setCell s h.idx { cell with state := .removed }) ∧
        Tx.peekState h (h.delete s).2 = some .removed) := by
  refine ⟨?_, ?_, ?_, ?_⟩
  · intro schema toRowF obj s s' h tr hc
    unfold create at hc
    split at hc
    · exact absurd hc (by simp)
    · split at hc
      · exact absurd hc (by simp)
      · simp only [Prod.mk.injEq, TxResult.ok.injEq] at hc
        obtain ⟨rfl, rfl, rfl⟩ := hc
        simp only [Tx.peekState, listGetAppend_self]
        rfl
  · intro schema fromRowF id s s' h tr hfind hc
    simp only [get, hfind] at hc
    split at hc
    · exact absurd hc (by simp)
    · split at hc
      · exact absurd hc (by simp)
      · split at hc
        · exact absurd hc (by simp)
        · simp only [Prod.mk.injEq, TxResult.ok.injEq] at hc
          obtain ⟨rfl, rfl, rfl⟩ := hc
          simp only [Tx.peekState, listGetAppend_self]
          rfl
  · intro s h cell hcell hb hrem
    have heq : h.borrowMut s
        = (.ok cell.obj,
            setCell s h.idx
              { cell with borrows := .exclusive, state := .modified }) := by
      simp only [Tx.borrowMut, hcell, hb, if_neg hrem]
      simp
    refine ⟨heq, ?_⟩
    rw [heq]
    simp only [Tx.peekState, setCell,
      listGetSet_self s.store h.idx _ (listGet_some_lt s.store h.idx cell hcell)]
    rfl
  · intro s h cell hcell hb
    have heq : h.delete s
        = (.ok (), setCell s h.idx { cell with state := .removed }) := by
      simp only [Tx.delete, hcell, hb]
    refine ⟨heq, ?_⟩
    rw [heq]
    simp only [Tx.peekState, setCell,
      listGetSet_self s.store h.idx _ (listGet_some_lt s.store h.idx cell hcell)]
    rfl

/-- Witness for claim C5 at concrete inputs: a concrete `create`, a fresh
`get`, a `borrow_mut` and a `delete` land in the tags `Clean`, `Clean`,
`Modified` and `Removed` respectively. -/
theorem dirty_state_transitions_witness :
    Tx.peekState (⟨1, 0⟩ : Tx)
        ({ inner := (), store := [CacheValue.new (5 : Int)],
           cache := [(1, 0)] } : TxnState Unit Int) = some .clean ∧
    Tx.peekState (⟨2, 0⟩ : Tx)
        ({ inner := (), store := [CacheValue.new (7 : Int)],
           cache := [(2, 0)] } : TxnState Unit Int) = some .clean ∧
    Tx.peekState (⟨1, 0⟩ : Tx) ((Tx.borrowMut ⟨1, 0⟩ cleanState).2)
        = some .modified ∧
    Tx.peekState (⟨1, 0⟩ : Tx) ((Tx.delete ⟨1, 0⟩ cleanState).2)
        = some .removed := by
  refine ⟨?_, ?_, ?_, ?_⟩
  · exact (dirty_state_transitions okBackend).1 intSchema intToRow 5
      emptyState _ ⟨1, 0⟩ [.tableExists "Num", .insertRow intSchema [.int64 5]]
      (by decide)
  · exact (dirty_state_transitions okBackend).2.1 intSchema intFromRow 2
      emptyState _ ⟨2, 0⟩ [.tableExists "Num", .selectRow 2 intSchema]
      (by decide) (by decide)
  · exact ((dirty_state_transitions okBackend).2.2.1 cleanState ⟨1, 0⟩
      { borrows := .shared 0, state := .clean, obj := 7 }
      (by decide) (by decide) (by decide)).2
  · exact ((dirty_state_transitions okBackend).2.2.2 cleanState ⟨1, 0⟩
      { borrows := .shared 0, state := .clean, obj := 7 }
      (by decide) (by decide)).2

/-- Claim C6: borrow-safety violations are fatal, not recoverable.
`borrow` and `borrow_mut` on an entry tagged `Removed` panic (they do not
return an error result), and `delete` of an entry that is currently mutably
borrowed panics; in each case the state is left untouched. -/
theorem borrow_safety_fatal {σ Obj : Type} :
    (∀ (s : TxnState σ Obj) (h : Tx) (cell : CacheValue Obj),
      s.store.get? h.idx = some cell → cell.state = .removed →
        (Tx.borrowRef h s).1.isPanic = true ∧ (Tx.borrowRef h s).2 = s) ∧
    (∀ (s : TxnState σ Obj) (h : Tx) (cell : CacheValue Obj),
      s.store.get? h.idx = some cell → cell.state = .removed →
        (Tx.borrowMut h s).1.isPanic = true ∧ (Tx.borrowMut h s).2 = s) ∧
    (∀ (s : TxnState σ Obj) (h : Tx) (cell : CacheValue Obj),
      s.store.get? h.idx = some cell → cell.borrows = .exclusive →
        (Tx.delete h s).1.isPanic = true ∧ (Tx.delete h s).2 = s) := by
  refine ⟨?_, ?_, ?_⟩
  · intro s h cell hcell hrem
    cases hb : cell.borrows with
    | exclusive =>
        refine ⟨?_, ?_⟩ <;>
          simp only [Tx.borrowRef, hcell, hb, TxResult.isPanic]
    | shared n =>
        refine ⟨?_, ?_⟩ <;>
          simp only [Tx.borrowRef, hcell, hb, if_pos hrem, TxResult.isPanic]
  · intro s h cell hcell hrem
    cases hb : cell.borrows with
    | exclusive =>
        refine ⟨?_, ?_⟩ <;>
          simp only [Tx.borrowMut, hcell, hb, TxResult.isPanic]
    | shared n =>
        refine ⟨?_, ?_⟩ <;>
          simp only [Tx.borrowMut, hcell, hb, if_pos hrem, TxResult.isPanic]
  · intro s h cell hcell hb
    refine ⟨?_, ?_⟩ <;>
      simp only [Tx.delete, hcell, hb, TxResult.isPanic]

/-- Witness for claim C6 at concrete states: borrowing the tombstoned entry
panics either way, and deleting a mutably borrowed entry panics. -/
theorem borrow_safety_fatal_witness :
    (Tx.borrowRef (⟨1, 0⟩ : Tx) removedState).1.isPanic = true ∧
    (Tx.borrowMut (⟨1, 0⟩ : Tx) removedState).1.isPanic = true ∧
    (Tx.delete (⟨1, 0⟩ : Tx) exclusiveState).1.isPanic = true :=
  ⟨(borrow_safety_fatal.1 removedState ⟨1, 0⟩
      { borrows := .shared 0, state := .removed, obj := 7 }
      (by decide) (by decide)).1,
   (borrow_safety_fatal.2.1 removedState ⟨1, 0⟩
      { borrows := .shared 0, state := .removed, obj := 7 }
      (by decide) (by decide)).1,
   (borrow_safety_fatal.2.2 exclusiveState ⟨1, 0⟩
      { borrows := .exclusive, state := .modified, obj := 7 }
      (by decide) (by decide)).1⟩

/-- Claim C10: `delete` is fatal under any outstanding borrow, read-only
borrows included. Deleting right after a successful `borrow` through any
aliasing handle panics and leaves the tag unchanged; deleting while the
borrow flag is anything but free panics and leaves the tag unchanged; only
with no outstanding borrow at all does `delete` succeed and tag the entry
`Removed`. -/
theorem delete_fatal_under_any_borrow {σ Obj : Type} :
    (∀ (s s1 : TxnState σ Obj) (h h' : Tx) (v : Obj),
      h'.idx = h.idx → Tx.borrowRef h' s = (.ok v, s1) →
        (Tx.delete h s1).1.isPanic = true ∧
        Tx.peekState h (Tx.delete h s1).2 = Tx.peekState h s1) ∧
    (∀ (s : TxnState σ Obj) (h : Tx) (cell : CacheValue Obj),
      s.store.get? h.idx = some cell → cell.borrows ≠ .shared 0 →
        (Tx.delete h s).1.isPanic = true ∧
        Tx.peekState h (Tx.delete h s).2 = Tx.peekState h s) ∧
    (∀ (s : TxnState σ Obj) (h : Tx) (cell : CacheValue Obj),
      s.store.get? h.idx = some cell → cell.borrows = .shared 0 →
        (Tx.delete h s).1 = .ok () ∧
        Tx.peekState h (Tx.delete h s).2 = some .removed) := by
  have hdel : ∀ (s : TxnState σ Obj) (h : Tx) (cell : CacheValue Obj),
      s.store.get? h.idx = some cell → cell.borrows ≠ .shared 0 →
        Tx.delete h s = (.panic "cannot delete a borrowed object", s) := by
    intro s h cell hcell hb
    cases hbc : cell.borrows with
    | exclusive => simp only [Tx.delete, hcell, hbc]
    | shared n =>
        cases n with
        | zero => exact absurd hbc hb
        | succ m => simp only [Tx.delete, hcell, hbc]
  refine ⟨?_, ?_, ?_⟩
  · intro s s1 h h' v hidx hb
    unfold Tx.borrowRef at hb
    split at hb
    · exact absurd hb (by simp)
    · rename_i cell hcell
      split at hb
      · exact absurd hb (by simp)
      · rename_i n hbor
        split at hb
        · exact absurd hb (by simp)
        · simp only [Prod.mk.injEq, TxResult.ok.injEq] at hb
          obtain ⟨rfl, rfl⟩ := hb
          have hcell1 : (setCell s h'.idx
              { cell with borrows := .shared (n + 1) }).store.get? h.idx
              = some { cell with borrows := .shared (n + 1) } := by
            rw [← hidx]
            exact listGetSet_self s.store h'.idx _
              (listGet_some_lt s.store h'.idx cell hcell)
          rw [hdel _ h _ hcell1 (by simp)]
          exact ⟨rfl, rfl⟩
  · intro s h cell hcell hb
    rw [hdel s h cell hcell hb]
    exact ⟨rfl, rfl⟩
  · intro s h cell hcell hb
    have heq : h.delete s
        = (.ok (), setCell s h.idx { cell with state := .removed }) := by
      simp only [Tx.delete, hcell, hb]
    rw [heq]
    refine ⟨rfl, ?_⟩
    simp only [Tx.peekState, setCell,
      listGetSet_self s.store h.idx _ (listGet_some_lt s.store h.idx cell hcell)]
    rfl

/-- Witness for claim C10 at concrete states: deleting after a read borrow
panics with the tag unchanged, deleting under a recorded shared borrow
panics, and deleting the unborrowed entry succeeds and tags it `Removed`. -/
theorem delete_fatal_under_any_borrow_witness :
    ((Tx.delete (⟨1, 0⟩ : Tx) (Tx.borrowRef ⟨1, 0⟩ cleanState).2).1.isPanic
        = true ∧
      Tx.peekState (⟨1, 0⟩ : Tx)
          (Tx.delete (⟨1, 0⟩ : Tx) (Tx.borrowRef ⟨1, 0⟩ cleanState).2).2
        = Tx.peekState (⟨1, 0⟩ : Tx) (Tx.borrowRef ⟨1, 0⟩ cleanState).2) ∧
    (Tx.delete (⟨1, 0⟩ : Tx) sharedState).1.isPanic = true ∧
    ((Tx.delete (⟨1, 0⟩ : Tx) cleanState).1 = .ok () ∧
      Tx.peekState (⟨1, 0⟩ : Tx) (Tx.delete (⟨1, 0⟩ : Tx) cleanState).2
        = some .removed) :=
  ⟨delete_fatal_under_any_borrow.1 cleanState
      (Tx.borrowRef ⟨1, 0⟩ cleanState).2 ⟨1, 0⟩ ⟨1, 0⟩ 7 rfl (by decide),
   (delete_fatal_under_any_borrow.2.1 sharedState ⟨1, 0⟩
      { borrows := .shared 1, state := .clean, obj := 7 }
      (by decide) (by decide)).1,
   delete_fatal_under_any_borrow.2.2 cleanState ⟨1, 0⟩
      { borrows := .shared 0, state := .clean, obj := 7 }
      (by decide) (by decide)⟩

/-- Claim C9: when `create` or `get` returns an error, the cache mapping
and the entry arena are left exactly as they were — in particular no new or
altered entry exists for the requested identifier. -/
theorem failed_load_leaves_cache_unchanged {σ Obj : Type}
    (B : StorageTransaction σ) :
    (∀ (schema : Schema) (toRowF : Obj → Row) (obj : Obj)
        (s s' : TxnState σ Obj) (e : Error) (tr : List StorageCall),
      create B schema toRowF obj s = (.err e, s', tr) →
        s'.cache = s.cache ∧ s'.store = s.store) ∧
    (∀ (schema : Schema) (fromRowF : Row → Option Obj) (id : ObjectId)
        (s s' : TxnState σ Obj) (e : Error) (tr : List StorageCall),
      get B schema fromRowF id s = (.err e, s', tr) →
        s'.cache = s.cache ∧ s'.store = s.store) := by
  constructor
  · intro schema toRowF obj s s' e tr hc
    unfold create at hc
    split at hc
    · simp only [Prod.mk.injEq, TxResult.err.injEq] at hc
      obtain ⟨rfl, rfl, rfl⟩ := hc
      exact ⟨rfl, rfl⟩
    · split at hc
      · simp only [Prod.mk.injEq, TxResult.err.injEq] at hc
        obtain ⟨rfl, rfl, rfl⟩ := hc
        exact ⟨rfl, rfl⟩
      · exact absurd hc (by simp)
  · intro schema fromRowF id s s' e tr hc
    unfold get at hc
    split at hc
    · split at hc
      · exact absurd hc (by simp)
      · split at hc
        · exact absurd hc (by simp)
        · split at hc
          · simp only [Prod.mk.injEq, TxResult.err.injEq] at hc
            obtain ⟨rfl, rfl, rfl⟩ := hc
            exact ⟨rfl, rfl⟩
          · exact absurd hc (by simp)
    · split at hc
      · simp only [Prod.mk.injEq, TxResult.err.injEq] at hc
        obtain ⟨rfl, rfl, rfl⟩ := hc
        exact ⟨rfl, rfl⟩
      · split at hc
        · simp only [Prod.mk.injEq, TxResult.err.injEq] at hc
          obtain ⟨rfl, rfl, rfl⟩ := hc
          exact ⟨rfl, rfl⟩
        · split at hc
          · exact absurd hc (by simp)
          · exact absurd hc (by simp)

/-- Witness for claim C9 at concrete inputs: a failed insert during
`create` and a failed select during `get` leave the empty cache empty. -/
theorem failed_load_leaves_cache_unchanged_witness :
    ((create failInsertBackend intSchema intToRow 5 emptyState).2.1.cache
        = emptyState.cache ∧
      (create failInsertBackend intSchema intToRow 5 emptyState).2.1.store
        = emptyState.store) ∧
    ((get failSelectBackend intSchema intFromRow 2 emptyState).2.1.cache
        = emptyState.cache ∧
      (get failSelectBackend intSchema intFromRow 2 emptyState).2.1.store
        = emptyState.store) :=
  ⟨(failed_load_leaves_cache_unchanged failInsertBackend).1 intSchema
      intToRow 5 emptyState _ (.storage "insert failed")
      [.tableExists "Num", .insertRow intSchema [.int64 5]] (by decide),
   (failed_load_leaves_cache_unchanged failSelectBackend).2 intSchema
      intFromRow 2 emptyState _ (.storage "select failed")
      [.tableExists "Num", .selectRow 2 intSchema] (by decide)⟩

/-- Helper lemma: `join(",")` of a list ending in one more element splits
off its head. -/
theorem joinComma_cons_append (x : String) (l : List String) (y : String) :
    joinComma (x :: (l ++ [y])) = x ++ "," ++ joinComma (l ++ [y]) := by
  cases l with
  | nil => rfl
  | cons a l => rfl

/-- Helper lemma: the `SET` list built by `update_row` — numbered column
assignments joined with commas, chained with `id = id` — equals the
recursive clause description `setClauseSpec`. -/
theorem joinComma_setClause (fs : List Field) (i : Nat) :
    joinComma
        ((((List.range' i fs.length).zip fs).map
            (fun p => p.2.columnName ++ " = ?" ++ toString p.1))
          ++ ["id = id"])
      = setClauseSpec i fs := by
  induction fs generalizing i with
  | nil => rfl
  | cons f fs ih =>
      simp only [List.length_cons, List.range', List.zip_cons_cons,
        List.map_cons, List.cons_append]
      rw [joinComma_cons_append, ih (i + 1)]
      rfl

/-- Claim C7, counterexample to the claimed statement shape: for the
one-field `Person` schema, `update_row` issues the statement with a trailing
`id = id` assignment in its `SET` list, which differs from the shape
`UPDATE <table> SET <col>=?,… WHERE id=?` stated by the spec (modelled by
`updateRowSqlSpec`). -/
theorem update_row_shape_counterexample :
    (Sqlite.updateRow okExec 1 personSchema [Value.str "Ann"]).2.map Prod.fst
        = ["UPDATE Person SET name = ?1,id = id WHERE id = ?2"] ∧
    updateRowSqlSpec personSchema [Value.str "Ann"]
        = "UPDATE Person SET name = ?1 WHERE id = ?2" ∧
    ("UPDATE Person SET name = ?1,id = id WHERE id = ?2" : String)
        ≠ "UPDATE Person SET name = ?1 WHERE id = ?2" :=
  ⟨by decide, by decide, by decide⟩

/-- Claim C7 as amended: for a zero-field schema `update_row` issues no
statement and succeeds; for a schema with at least one field it issues
exactly one statement `UPDATE <table> SET <col> = ?i,…,id = id WHERE
id = ?n` — every schema column assigned from the row values matched by
position, followed by the no-op `id = id` term — with the row values and
then the identifier as its positional parameters. -/
theorem update_row_statement_shape
    (e : String → List SqlParam → Except Error Unit) (id : ObjectId)
    (schema : Schema) (row : Row)
    (hlen : row.length = schema.fields.length) :
    (schema.fields = [] → Sqlite.updateRow e id schema row = (.ok (), [])) ∧
    (schema.fields ≠ [] →
      (Sqlite.updateRow e id schema row).2
        = [("UPDATE " ++ schema.tableName ++ " SET "
              ++ setClauseSpec 1 schema.fields
              ++ " WHERE id = ?" ++ toString (row.length + 1),
            row.map SqlParam.val ++ [SqlParam.intParam id])]) := by
  constructor
  · intro hf
    simp only [Sqlite.updateRow, hf, List.isEmpty_nil, if_true]
  · intro hf
    cases hfields : schema.fields with
    | nil => exact absurd hfields hf
    | cons f fs =>
        simp only [Sqlite.updateRow, hfields, List.isEmpty_cons,
          Bool.false_eq_true, if_false, Sqlite.updateRowSql, rowToParameters]
        rw [hlen, hfields]
        rw [joinComma_setClause (f :: fs) 1]

/-- Witness for the amended claim C7 at concrete inputs: the zero-field
schema issues nothing and succeeds, and the one-field `Person` schema
issues exactly the single statement with the trailing `id = id` term. -/
theorem update_row_statement_shape_witness :
    Sqlite.updateRow okExec 1 unitSchema [] = (.ok (), []) ∧
    (Sqlite.updateRow okExec 1 personSchema [Value.str "Ann"]).2
        = [("UPDATE Person SET name = ?1,id = id WHERE id = ?2",
            [SqlParam.val (Value.str "Ann"), SqlParam.intParam 1])] :=
  ⟨(update_row_statement_shape okExec 1 unitSchema [] (by decide)).1 rfl,
   Eq.trans
     ((update_row_statement_shape okExec 1 personSchema [Value.str "Ann"]
        (by decide)).2 (by decide))
     (by decide)⟩

/-- Helper lemma: a failed cache lookup means the identifier is not a key. -/
theorem cacheFind_eq_none_iff (c : List (ObjectId × Nat)) (id : ObjectId) :
    cacheFind c id = none ↔ id ∉ c.map Prod.fst := by
  induction c with
  | nil => simp [cacheFind]
  | cons p rest ih =>
      obtain ⟨k, v⟩ := p
      by_cases hk : k = id
      · subst hk
        simp [cacheFind]
      · simp only [cacheFind, if_neg hk, List.map_cons, List.mem_cons, ih]
        constructor
        · intro hn hmem
          rcases hmem with hmem | hmem
          · exact hk hmem.symm
          · exact hn hmem
        · intro hn hmem
          exact hn (Or.inr hmem)

/-- Helper lemma: inserting an absent key appends the new binding. -/
theorem cacheInsert_of_none (c : List (ObjectId × Nat)) (id : ObjectId)
    (idx : Nat) (hn : cacheFind c id = none) :
    cacheInsert c id idx = c ++ [(id, idx)] := by
  induction c with
  | nil => rfl
  | cons p rest ih =>
      obtain ⟨k, v⟩ := p
      by_cases hk : k = id
      · simp [cacheFind, if_pos hk] at hn
      · simp only [cacheFind, if_neg hk] at hn
        simp only [cacheInsert, if_neg hk, List.cons_append, ih hn]

/-- Helper lemma: after an insert, the inserted binding is found. -/
theorem cacheFind_cacheInsert_self (c : List (ObjectId × Nat))
    (id : ObjectId) (idx : Nat) :
    cacheFind (cacheInsert c id idx) id = some idx := by
  induction c with
  | nil => simp [cacheInsert, cacheFind]
  | cons p rest ih =>
      obtain ⟨k, v⟩ := p
      by_cases hk : k = id
      · simp [cacheInsert, if_pos hk, cacheFind]
      · simp only [cacheInsert, if_neg hk, cacheFind, ih]

/-- Helper lemma: a successful `get` leaves the state well formed, returns a
handle bound to the requested identifier whose cell is cached under that
identifier, is not mutably borrowed, and is not tombstoned. -/
theorem get_ok_characterization {σ Obj : Type} (B : StorageTransaction σ)
    (schema : Schema) (fromRowF : Row → Option Obj) (id : ObjectId)
    (s s₁ : TxnState σ Obj) (h₁ : Tx) (tr₁ : List StorageCall)
    (hWF : WF s) (hg : get B schema fromRowF id s = (.ok h₁, s₁, tr₁)) :
    h₁.id = id ∧ cacheFind s₁.cache id = some h₁.idx ∧
    (∃ cell₁, s₁.store.get? h₁.idx = some cell₁ ∧
      cell₁.borrows ≠ .exclusive ∧ cell₁.state ≠ .removed) ∧
    WF s₁ := by
  rcases hfind : cacheFind s.cache id with _ | idx
  · simp only [get, hfind] at hg
    rcases hens : ensureTableExists B schema s.inner with ⟨oe, st1, tr⟩
    rcases oe with _ | e
    · simp only [hens] at hg
      rcases hsel : B.selectRow st1 id schema with ⟨er, st2⟩
      rcases er with e | row
      · simp only [hsel] at hg
        exact absurd hg (by simp)
      · simp only [hsel] at hg
        rcases hfr : fromRowF row with _ | obj
        · simp only [hfr] at hg
          exact absurd hg (by simp)
        · simp only [hfr] at hg
          simp only [Prod.mk.injEq, TxResult.ok.injEq] at hg
          obtain ⟨rfl, rfl, rfl⟩ := hg
          refine ⟨rfl, ?_, ⟨CacheValue.new obj, ?_, by simp [CacheValue.new], by simp [CacheValue.new]⟩, ?_, ?_⟩
          · exact cacheFind_cacheInsert_self s.cache id s.store.length
          · exact listGetAppend_self s.store (CacheValue.new obj)
          · rw [cacheInsert_of_none s.cache id s.store.length hfind]
            simp only [nodupKeys, List.map_append, List.map_cons,
              List.map_nil]
            rw [List.nodup_append]
            refine ⟨hWF.1, List.nodup_singleton id, ?_⟩
            intro a ha hb
            rw [List.mem_singleton] at hb
            subst hb
            exact (cacheFind_eq_none_iff s.cache a).mp hfind ha
          · intro p hp
            rw [cacheInsert_of_none s.cache id s.store.length hfind] at hp
            rcases List.mem_append.mp hp with hp | hp
            · calc p.2 < s.store.length := hWF.2 p hp
                _ ≤ (s.store ++ [CacheValue.new obj]).length := by
                    simp [List.length_append]
            · rw [List.mem_singleton] at hp
              subst hp
              simp [List.length_append]
    · simp only [hens] at hg
      exact absurd hg (by simp)
  · simp only [get, hfind] at hg
    rcases hcell : s.store.get? idx with _ | cell
    · simp only [hcell] at hg
      exact absurd hg (by simp)
    · simp only [hcell] at hg
      by_cases hex : cell.borrows = .exclusive
      · rw [if_pos hex] at hg
        exact absurd hg (by simp)
      · rw [if_neg hex] at hg
        cases hst : cell.state with
        | removed =>
            simp only [hst] at hg
            exact absurd hg (by simp)
        | clean =>
            simp only [hst] at hg
            simp only [Prod.mk.injEq, TxResult.ok.injEq] at hg
            obtain ⟨rfl, rfl, rfl⟩ := hg
            exact ⟨rfl, hfind, ⟨cell, hcell, hex, by rw [hst]; simp⟩, hWF⟩
        | modified =>
            simp only [hst] at hg
            simp only [Prod.mk.injEq, TxResult.ok.injEq] at hg
            obtain ⟨rfl, rfl, rfl⟩ := hg
            exact ⟨rfl, hfind, ⟨cell, hcell, hex, by rw [hst]; simp⟩, hWF⟩

/-- Helper lemma: a successful `write-through` (borrow mutably, overwrite,
drop) maps the visible value at the handle's cell by `f`. -/
theorem writeThrough_peek {σ Obj : Type} (h : Tx) (f : Obj → Obj)
    (s s₃ : TxnState σ Obj)
    (hw : Tx.writeThrough h f s = (.ok (), s₃)) :
    Tx.peek h s₃ = (Tx.peek h s).map f := by
  unfold Tx.writeThrough at hw
  rcases hcell : s.store.get? h.idx with _ | cell
  · simp only [Tx.borrowMut, hcell] at hw
    exact absurd hw (by simp)
  · have hlt : h.idx < s.store.length := listGet_some_lt _ _ _ hcell
    rcases hbor : cell.borrows with n | _
    · by_cases hrem : cell.state = .removed
      · simp only [Tx.borrowMut, hcell, hbor, if_pos hrem] at hw
        exact absurd hw (by simp)
      · rcases hn : n with _ | m
        · have hmut : Tx.borrowMut h s
              = (.ok cell.obj,
                  setCell s h.idx
                    { cell with borrows := .exclusive,
                                state := .modified }) := by
            simp only [Tx.borrowMut, hcell, hbor, hn, if_neg hrem]
            simp
          rw [hmut] at hw
          have hcell1 : (setCell s h.idx
              { cell with borrows := .exclusive,
                          state := .modified }).store.get? h.idx
              = some { cell with borrows := .exclusive,
                                 state := .modified } :=
            listGetSet_self s.store h.idx _ hlt
          simp only [Tx.writeObj, hcell1] at hw
          have hcell2 : ((s.store.set h.idx
              { cell with borrows := .exclusive, state := .modified }).set
                h.idx
                { cell with borrows := .exclusive, state := .modified,
                            obj := f cell.obj }).get? h.idx
              = some { cell with borrows := .exclusive, state := .modified,
                                 obj := f cell.obj } := by
            apply listGetSet_self
            simpa using hlt
          simp only [Tx.dropMut, setCell, hcell2] at hw
          simp only [Prod.mk.injEq] at hw
          obtain ⟨-, rfl⟩ := hw
          have hfinal : ((((s.store.set h.idx
              { cell with borrows := .exclusive, state := .modified }).set
                h.idx
                { cell with borrows := .exclusive, state := .modified,
                            obj := f cell.obj }).set h.idx
                { cell with borrows := .shared 0, state := .modified,
                            obj := f cell.obj })).get? h.idx
              = some { cell with borrows := .shared 0, state := .modified,
                                 obj := f cell.obj } := by
            apply listGetSet_self
            simpa using hlt
          simp only [Tx.peek, setCell, hcell, hfinal]
          rfl
        · simp only [Tx.borrowMut, hcell, hbor, hn, if_neg hrem] at hw
          exact absurd hw (by simp)
    · simp only [Tx.borrowMut, hcell, hbor] at hw
      exact absurd hw (by simp)

/-- Claim C1: identity-map semantics. Two successive successful `get` calls
for the same identifier (with no intervening delete) return the same handle
bound to the same cache entry, the cache keeps at most one entry per
identifier, and a mutation written through the first handle is visible when
reading through the second. -/
theorem identity_map_semantics {σ Obj : Type} (B : StorageTransaction σ)
    (schema : Schema) (fromRowF : Row → Option Obj) (id : ObjectId)
    (s s₁ s₂ : TxnState σ Obj) (h₁ h₂ : Tx) (tr₁ tr₂ : List StorageCall)
    (hWF : WF s)
    (hg₁ : get B schema fromRowF id s = (.ok h₁, s₁, tr₁))
    (hg₂ : get B schema fromRowF id s₁ = (.ok h₂, s₂, tr₂)) :
    h₂ = h₁ ∧ s₂ = s₁ ∧
    (∀ i, (s₂.cache.map Prod.fst).count i ≤ 1) ∧
    (∀ (f : Obj → Obj) (s₃ : TxnState σ Obj),
      Tx.writeThrough h₁ f s₂ = (.ok (), s₃) →
        Tx.peek h₂ s₃ = (Tx.peek h₁ s₂).map f) := by
  obtain ⟨hid, hfind₁, ⟨cell₁, hcell₁, hex₁, hrem₁⟩, hWF₁⟩ :=
    get_ok_characterization B schema fromRowF id s s₁ h₁ tr₁ hWF hg₁
  have hsecond : get B schema fromRowF id s₁ = (.ok ⟨id, h₁.idx⟩, s₁, []) := by
    cases hst : cell₁.state with
    | removed => exact absurd hst hrem₁
    | clean =>
        simp only [get, hfind₁, hcell₁, if_neg hex₁, hst]
    | modified =>
        simp only [get, hfind₁, hcell₁, if_neg hex₁, hst]
  rw [hsecond] at hg₂
  simp only [Prod.mk.injEq, TxResult.ok.injEq] at hg₂
  obtain ⟨rfl, rfl, rfl⟩ := hg₂
  have hhandle : (⟨id, h₁.idx⟩ : Tx) = h₁ := by
    cases h₁
    simp only [Tx.mk.injEq]
    exact ⟨hid.symm, trivial⟩
  refine ⟨hhandle, rfl, ?_, ?_⟩
  · intro i
    exact List.nodup_iff_count_le_one.mp hWF₁.1 i
  · intro f s₃ hw
    rw [hhandle]
    exact writeThrough_peek h₁ f s₁ s₃ hw

/-- Witness for claim C1 at concrete inputs: after loading id 2 twice from
the empty cache, incrementing the value through the first handle is visible
when peeking through the second handle's cell. -/
theorem identity_map_semantics_witness :
    Tx.peek (⟨2, 0⟩ : Tx)
        ({ inner := (),
           store := [{ borrows := .shared 0, state := .modified, obj := 8 }],
           cache := [(2, 0)] } : TxnState Unit Int)
      = (Tx.peek (⟨2, 0⟩ : Tx)
          ({ inner := (),
             store := [{ borrows := .shared 0, state := .clean, obj := 7 }],
             cache := [(2, 0)] } : TxnState Unit Int)).map (fun n => n + 1) :=
  (identity_map_semantics okBackend intSchema intFromRow 2 emptyState
      { inner := (),
        store := [{ borrows := .shared 0, state := .clean, obj := 7 }],
        cache := [(2, 0)] }
      { inner := (),
        store := [{ borrows := .shared 0, state := .clean, obj := 7 }],
        cache := [(2, 0)] }
      ⟨2, 0⟩ ⟨2, 0⟩ [.tableExists "Num", .selectRow 2 intSchema] []
      ⟨by unfold nodupKeys; decide, by decide⟩ (by decide)
      (by decide)).2.2.2 (fun n => n + 1)
    { inner := (),
      store := [{ borrows := .shared 0, state := .modified, obj := 8 }],
      cache := [(2, 0)] }
    (by decide)

/-- Helper lemma: a successful flush loop issues exactly the concatenation
of every entry's contributed calls, in iteration order. -/
theorem flushLoop_ok_trace {σ Obj : Type} (B : StorageTransaction σ)
    (gS : Obj → Schema) (tR : Obj → Row) (store : List (CacheValue Obj)) :
    ∀ (entries : List (ObjectId × Nat)) (st st' : σ) (u : Unit)
      (tr : List StorageCall),
      commitFlushLoop B gS tR store entries st = (.ok u, st', tr) →
        tr = flushCalls gS tR store entries := by
  intro entries
  induction entries with
  | nil =>
      intro st st' u tr hc
      simp only [commitFlushLoop, Prod.mk.injEq] at hc
      obtain ⟨-, -, rfl⟩ := hc
      rfl
  | cons p rest ih =>
      intro st st' u tr hc
      obtain ⟨id, idx⟩ := p
      rcases hcell : store.get? idx with _ | cell
      · simp only [commitFlushLoop, hcell] at hc
        exact absurd hc (by simp)
      · by_cases hex : cell.borrows = .exclusive
        · simp only [commitFlushLoop, hcell, if_pos hex] at hc
          exact absurd hc (by simp)
        · cases hst : cell.state with
          | clean =>
              simp only [commitFlushLoop, hcell, if_neg hex, hst] at hc
              rw [ih st st' u tr hc]
              simp only [flushCalls, entryCalls, hcell, hst, List.nil_append]
          | modified =>
              simp only [commitFlushLoop, hcell, if_neg hex, hst] at hc
              rcases hup : B.updateRow st id (gS cell.obj) (tR cell.obj)
                  with ⟨er, st1⟩
              rcases er with e | u'
              · simp only [hup] at hc
                exact absurd hc (by simp)
              · simp only [hup] at hc
                rcases hrec : commitFlushLoop B gS tR store rest st1
                    with ⟨r, st2, tr2⟩
                simp only [hrec, Prod.mk.injEq] at hc
                obtain ⟨hr, -, rfl⟩ := hc
                cases r with
                | ok u2 =>
                    rw [ih st1 st2 u2 tr2 hrec]
                    simp only [flushCalls, entryCalls, hcell, hst,
                      List.cons_append, List.nil_append]
                | err e => exact absurd hr (by simp)
                | panic m => exact absurd hr (by simp)
          | removed =>
              simp only [commitFlushLoop, hcell, if_neg hex, hst] at hc
              rcases hdel : B.deleteRow st id (gS cell.obj) with ⟨er, st1⟩
              rcases er with e | u'
              · simp only [hdel] at hc
                exact absurd hc (by simp)
              · simp only [hdel] at hc
                rcases hrec : commitFlushLoop B gS tR store rest st1
                    with ⟨r, st2, tr2⟩
                simp only [hrec, Prod.mk.injEq] at hc
                obtain ⟨hr, -, rfl⟩ := hc
                cases r with
                | ok u2 =>
                    rw [ih st1 st2 u2 tr2 hrec]
                    simp only [flushCalls, entryCalls, hcell, hst,
                      List.cons_append, List.nil_append]
                | err e => exact absurd hr (by simp)
                | panic m => exact absurd hr (by simp)

/-- Helper lemma: an entry's contributed calls are all keyed by the entry's
own identifier, so filtering a different identifier drops them all. -/
theorem callsFor_entryCalls_ne {Obj : Type} (gS : Obj → Schema)
    (tR : Obj → Row) (store : List (CacheValue Obj)) (k id : ObjectId)
    (idx : Nat) (hne : k ≠ id) :
    callsFor id (entryCalls gS tR store (k, idx)) = [] := by
  rcases hcl : store.get? idx with _ | cell
  · rw [List.get?_eq_getElem?] at hcl
    simp [entryCalls, callsFor, hcl]
  · rw [List.get?_eq_getElem?] at hcl
    cases hst : cell.state <;>
      simp [entryCalls, callsFor, hcl, hst, StorageCall.idOf, hne]

/-- Helper lemma: filtering an entry's own identifier keeps all of its
contributed calls. -/
theorem callsFor_entryCalls_self {Obj : Type} (gS : Obj → Schema)
    (tR : Obj → Row) (store : List (CacheValue Obj)) (id : ObjectId)
    (idx : Nat) :
    callsFor id (entryCalls gS tR store (id, idx))
      = entryCalls gS tR store (id, idx) := by
  rcases hcl : store.get? idx with _ | cell
  · rw [List.get?_eq_getElem?] at hcl
    simp [entryCalls, callsFor, hcl]
  · rw [List.get?_eq_getElem?] at hcl
    cases hst : cell.state <;>
      simp [entryCalls, callsFor, hcl, hst, StorageCall.idOf]

/-- Helper lemma: a flush trace holds no calls for an identifier that is
not among the flushed keys. -/
theorem callsFor_flushCalls_not_mem {Obj : Type} (gS : Obj → Schema)
    (tR : Obj → Row) (store : List (CacheValue Obj)) :
    ∀ (entries : List (ObjectId × Nat)) (id : ObjectId),
      id ∉ entries.map Prod.fst →
        callsFor id (flushCalls gS tR store entries) = [] := by
  intro entries
  induction entries with
  | nil => intro id _; rfl
  | cons p rest ih =>
      intro id hmem
      obtain ⟨k, idx⟩ := p
      simp only [List.map_cons, List.mem_cons] at hmem
      push_neg at hmem
      simp only [flushCalls, callsFor, List.filter_append]
      have h1 := callsFor_entryCalls_ne gS tR store k id idx
        (fun hk => hmem.1 hk.symm)
      have h2 := ih id hmem.2
      simp only [callsFor] at h1 h2
      rw [h1, h2]
      rfl

/-- Helper lemma: with no duplicate keys, the calls a flush trace holds for
a cached identifier are exactly that entry's contributed calls. -/
theorem callsFor_flushCalls_of_find {Obj : Type} (gS : Obj → Schema)
    (tR : Obj → Row) (store : List (CacheValue Obj)) :
    ∀ (entries : List (ObjectId × Nat)) (id : ObjectId) (idx : Nat),
      nodupKeys entries → cacheFind entries id = some idx →
        callsFor id (flushCalls gS tR store entries)
          = entryCalls gS tR store (id, idx) := by
  intro entries
  induction entries with
  | nil => intro id idx _ hfind; exact absurd hfind (by simp [cacheFind])
  | cons p rest ih =>
      intro id idx hnodup hfind
      obtain ⟨k, v⟩ := p
      have hnodup' : nodupKeys rest := by
        simp only [nodupKeys, List.map_cons, List.nodup_cons] at hnodup
        exact hnodup.2
      by_cases hk : k = id
      · subst hk
        simp [cacheFind] at hfind
        subst hfind
        have hnot : k ∉ rest.map Prod.fst := by
          simp only [nodupKeys, List.map_cons, List.nodup_cons] at hnodup
          exact hnodup.1
        simp only [flushCalls, callsFor, List.filter_append]
        have h1 := callsFor_entryCalls_self gS tR store k v
        have h2 := callsFor_flushCalls_not_mem gS tR store rest k hnot
        simp only [callsFor] at h1 h2
        rw [h1, h2, List.append_nil]
      · simp only [cacheFind, if_neg hk] at hfind
        simp only [flushCalls, callsFor, List.filter_append]
        have h1 := callsFor_entryCalls_ne gS tR store k id v hk
        have h2 := ih id idx hnodup' hfind
        simp only [callsFor] at h1 h2
        rw [h1, h2, List.nil_append]

/-- Helper lemma: an entry never contributes the backend's commit call. -/
theorem commitCall_not_mem_entryCalls {Obj : Type} (gS : Obj → Schema)
    (tR : Obj → Row) (store : List (CacheValue Obj)) (p : ObjectId × Nat) :
    StorageCall.commitCall ∉ entryCalls gS tR store p := by
  obtain ⟨id, idx⟩ := p
  rcases hcl : store.get? idx with _ | cell
  · rw [List.get?_eq_getElem?] at hcl
    simp [entryCalls, hcl]
  · rw [List.get?_eq_getElem?] at hcl
    cases hst : cell.state <;> simp [entryCalls, hcl, hst]

/-- Helper lemma: a flush trace never holds the backend's commit call. -/
theorem commitCall_not_mem_flushCalls {Obj : Type} (gS : Obj → Schema)
    (tR : Obj → Row) (store : List (CacheValue Obj)) :
    ∀ entries : List (ObjectId × Nat),
      StorageCall.commitCall ∉ flushCalls gS tR store entries := by
  intro entries
  induction entries with
  | nil => simp [flushCalls]
  | cons p rest ih =>
      simp only [flushCalls, List.mem_append]
      rintro (h | h)
      · exact commitCall_not_mem_entryCalls gS tR store p h
      · exact ih h

/-- Helper lemma: a failed flush loop stops at the first failing entry —
every earlier entry was fully flushed, the failing entry issued its single
call, and no later entry contributed anything. -/
theorem flushLoop_err_char {σ Obj : Type} (B : StorageTransaction σ)
    (gS : Obj → Schema) (tR : Obj → Row) (store : List (CacheValue Obj)) :
    ∀ (entries : List (ObjectId × Nat)) (st : σ) (e : Error) (st' : σ)
      (tr : List StorageCall),
      commitFlushLoop B gS tR store entries st = (.err e, st', tr) →
        ∃ es₁ p es₂, entries = es₁ ++ p :: es₂ ∧
          tr = flushCalls gS tR store es₁ ++ entryCalls gS tR store p := by
  intro entries
  induction entries with
  | nil =>
      intro st e st' tr hc
      exact absurd hc (by simp [commitFlushLoop])
  | cons q rest ih =>
      intro st e st' tr hc
      obtain ⟨id, idx⟩ := q
      rcases hcell : store.get? idx with _ | cell
      · simp only [commitFlushLoop, hcell] at hc
        exact absurd hc (by simp)
      · by_cases hex : cell.borrows = .exclusive
        · simp only [commitFlushLoop, hcell, if_pos hex] at hc
          exact absurd hc (by simp)
        · cases hst : cell.state with
          | clean =>
              simp only [commitFlushLoop, hcell, if_neg hex, hst] at hc
              obtain ⟨es₁, p, es₂, hsplit, htr⟩ := ih st e st' tr hc
              refine ⟨(id, idx) :: es₁, p, es₂, by simp [hsplit], ?_⟩
              simp only [flushCalls, entryCalls, hcell, hst,
                List.nil_append]
              exact htr
          | modified =>
              simp only [commitFlushLoop, hcell, if_neg hex, hst] at hc
              rcases hup : B.updateRow st id (gS cell.obj) (tR cell.obj)
                  with ⟨er, st1⟩
              rcases er with e' | u'
              · simp only [hup, Prod.mk.injEq] at hc
                obtain ⟨-, -, rfl⟩ := hc
                refine ⟨[], (id, idx), rest, rfl, ?_⟩
                simp only [flushCalls, entryCalls, hcell, hst,
                  List.nil_append]
              · simp only [hup] at hc
                rcases hrec : commitFlushLoop B gS tR store rest st1
                    with ⟨r, st2, tr2⟩
                simp only [hrec, Prod.mk.injEq] at hc
                obtain ⟨hr, -, rfl⟩ := hc
                cases r with
                | ok u2 => exact absurd hr (by simp)
                | panic m => exact absurd hr (by simp)
                | err e2 =>
                    obtain ⟨es₁, p, es₂, hsplit, htr⟩ :=
                      ih st1 e2 st2 tr2 hrec
                    refine ⟨(id, idx) :: es₁, p, es₂, by simp [hsplit], ?_⟩
                    simp only [flushCalls, entryCalls, hcell, hst,
                      List.cons_append, List.nil_append, htr]
          | removed =>
              simp only [commitFlushLoop, hcell, if_neg hex, hst] at hc
              rcases hdl : B.deleteRow st id (gS cell.obj) with ⟨er, st1⟩
              rcases er with e' | u'
              · simp only [hdl, Prod.mk.injEq] at hc
                obtain ⟨-, -, rfl⟩ := hc
                refine ⟨[], (id, idx), rest, rfl, ?_⟩
                simp only [flushCalls, entryCalls, hcell, hst,
                  List.nil_append]
              · simp only [hdl] at hc
                rcases hrec : commitFlushLoop B gS tR store rest st1
                    with ⟨r, st2, tr2⟩
                simp only [hrec, Prod.mk.injEq] at hc
                obtain ⟨hr, -, rfl⟩ := hc
                cases r with
                | ok u2 => exact absurd hr (by simp)
                | panic m => exact absurd hr (by simp)
                | err e2 =>
                    obtain ⟨es₁, p, es₂, hsplit, htr⟩ :=
                      ih st1 e2 st2 tr2 hrec
                    refine ⟨(id, idx) :: es₁, p, es₂, by simp [hsplit], ?_⟩
                    simp only [flushCalls, entryCalls, hcell, hst,
                      List.cons_append, List.nil_append, htr]

/-- Claim C3: if an update-row or delete-row call issued during the commit
flush fails, `commit` stops flushing at that call — all earlier entries
were flushed and no later entry contributed a call — propagates that very
error, and never invokes the storage interface's commit. -/
theorem commit_abort_on_flush_failure {σ Obj : Type}
    (B : StorageTransaction σ) (gS : Obj → Schema) (tR : Obj → Row)
    (s : TxnState σ Obj) (e : Error) (st0 : σ) (tr0 : List StorageCall)
    (hf : commitFlushLoop B gS tR s.store s.cache s.inner
        = (.err e, st0, tr0)) :
    commit B gS tR s = (.err e, st0, tr0) ∧
    StorageCall.commitCall ∉ tr0 ∧
    ∃ es₁ p es₂, s.cache = es₁ ++ p :: es₂ ∧
      tr0 = flushCalls gS tR s.store es₁ ++ entryCalls gS tR s.store p := by
  have hchar := flushLoop_err_char B gS tR s.store s.cache s.inner e st0 tr0 hf
  refine ⟨?_, ?_, hchar⟩
  · simp only [commit, hf]
  · obtain ⟨es₁, p, es₂, -, htr⟩ := hchar
    rw [htr]
    intro hmem
    rcases List.mem_append.mp hmem with h | h
    · exact commitCall_not_mem_flushCalls gS tR s.store es₁ h
    · exact commitCall_not_mem_entryCalls gS tR s.store p h

/-- Witness for claim C3 at a concrete state: with a backend whose updates
fail, committing a cache holding a clean, a modified and a removed entry
stops at the modified entry's update call, returns the storage error, and
the trace holds no backend commit call. -/
theorem commit_abort_on_flush_failure_witness :
    commit failUpdateBackend intGetSchema intToRow flushState
        = (.err (.storage "update failed"), (),
            [.updateRow 2 intSchema [.int64 5]]) ∧
    StorageCall.commitCall ∉ [StorageCall.updateRow 2 intSchema [.int64 5]] :=
  ⟨(commit_abort_on_flush_failure failUpdateBackend intGetSchema intToRow
      flushState (.storage "update failed") ()
      [.updateRow 2 intSchema [.int64 5]] (by decide)).1,
   (commit_abort_on_flush_failure failUpdateBackend intGetSchema intToRow
      flushState (.storage "update failed") ()
      [.updateRow 2 intSchema [.int64 5]] (by decide)).2.1⟩

/-- Claim C2: commit flush completeness. When `commit` succeeds, the call
trace is the flush calls followed by exactly one backend commit call (the
backend commit comes only after every entry has been flushed), and for every
cache entry: a `Clean` entry gets no storage call, a `Modified` entry gets
exactly one update call carrying its current serialized value, and a
`Removed` entry gets exactly one delete call. -/
theorem commit_flush_completeness {σ Obj : Type} (B : StorageTransaction σ)
    (gS : Obj → Schema) (tR : Obj → Row) (s : TxnState σ Obj) (st : σ)
    (tr : List StorageCall) (hnodup : nodupKeys s.cache)
    (hc : commit B gS tR s = (.ok (), st, tr)) :
    (∃ tr0, tr = tr0 ++ [.commitCall] ∧ StorageCall.commitCall ∉ tr0) ∧
    (∀ (id : ObjectId) (idx : Nat) (cell : CacheValue Obj),
      cacheFind s.cache id = some idx → s.store.get? idx = some cell →
        (cell.state = .clean → callsFor id tr = []) ∧
        (cell.state = .modified →
          callsFor id tr = [.updateRow id (gS cell.obj) (tR cell.obj)]) ∧
        (cell.state = .removed →
          callsFor id tr = [.deleteRow id (gS cell.obj)])) := by
  rcases hfl : commitFlushLoop B gS tR s.store s.cache s.inner
      with ⟨r, st1, tr1⟩
  cases r with
  | err e =>
      have hcv : commit B gS tR s = (.err e, st1, tr1) := by
        simp only [commit, hfl]
      rw [hcv] at hc
      exact absurd hc (by simp)
  | panic m =>
      have hcv : commit B gS tR s = (.panic m, st1, tr1) := by
        simp only [commit, hfl]
      rw [hcv] at hc
      exact absurd hc (by simp)
  | ok u =>
      rcases hct : B.commitTx st1 with ⟨cr, st2⟩
      rcases cr with e | u2
      · have hcv : commit B gS tR s
            = (.err e, st2, tr1 ++ [.commitCall]) := by
          simp only [commit, hfl, hct]
        rw [hcv] at hc
        exact absurd hc (by simp)
      · have hcv : commit B gS tR s
            = (.ok (), st2, tr1 ++ [.commitCall]) := by
          simp only [commit, hfl, hct]
        rw [hcv] at hc
        simp only [Prod.mk.injEq] at hc
        obtain ⟨-, -, rfl⟩ := hc
        have htr1 : tr1 = flushCalls gS tR s.store s.cache :=
          flushLoop_ok_trace B gS tR s.store s.cache s.inner st1 u tr1 hfl
        constructor
        · refine ⟨tr1, rfl, ?_⟩
          rw [htr1]
          exact commitCall_not_mem_flushCalls gS tR s.store s.cache
        · intro id idx cell hfind hcell
          have hcalls : callsFor id (tr1 ++ [StorageCall.commitCall])
              = callsFor id tr1 := by
            simp [callsFor, StorageCall.idOf]
          rw [hcalls, htr1,
            callsFor_flushCalls_of_find gS tR s.store s.cache id idx
              hnodup hfind]
          rw [List.get?_eq_getElem?] at hcell
          refine ⟨?_, ?_, ?_⟩ <;> intro hst <;>
            simp [entryCalls, hcell, hst]

/-- Witness for claim C2 at a concrete state: committing a cache holding a
clean entry (id 1), a modified entry (id 2, value 5) and a removed entry
(id 3) issues exactly one update for id 2, exactly one delete for id 3,
nothing for id 1, and the backend commit call last. -/
theorem commit_flush_completeness_witness :
    (∃ tr0,
      ([.updateRow 2 intSchema [.int64 5], .deleteRow 3 intSchema,
          .commitCall] : List StorageCall) = tr0 ++ [.commitCall] ∧
        StorageCall.commitCall ∉ tr0) ∧
    callsFor 1 [.updateRow 2 intSchema [.int64 5], .deleteRow 3 intSchema,
        .commitCall] = [] ∧
    callsFor 2 [.updateRow 2 intSchema [.int64 5], .deleteRow 3 intSchema,
        .commitCall] = [.updateRow 2 intSchema [.int64 5]] ∧
    callsFor 3 [.updateRow 2 intSchema [.int64 5], .deleteRow 3 intSchema,
        .commitCall] = [.deleteRow 3 intSchema] := by
  have hmain := commit_flush_completeness okBackend intGetSchema intToRow
    flushState ()
    [.updateRow 2 intSchema [.int64 5], .deleteRow 3 intSchema, .commitCall]
    (by unfold nodupKeys; decide) (by decide)
  refine ⟨hmain.1, ?_, ?_, ?_⟩
  · exact (hmain.2 1 0 { borrows := .shared 0, state := .clean, obj := 4 }
      (by decide) (by decide)).1 rfl
  · exact (hmain.2 2 1 { borrows := .shared 0, state := .modified, obj := 5 }
      (by decide) (by decide)).2.1 rfl
  · exact (hmain.2 3 2 { borrows := .shared 0, state := .removed, obj := 6 }
      (by decide) (by decide)).2.2 rfl

end Orm
